import Mathlib

/-!
Verification development for the anonymous-target subsystem
(`buck2_build_api/src/analysis/anon_targets.rs`).

The Rust source is embedded shallowly: pure functions become Lean
functions, the mutable `AnonTargetsRegistry` becomes explicit state
passing, and fallible code returns `Except`.  External collaborator
types (configurations, labels, execution platforms, the pattern lexer
from `buck2_core`, the attribute coercers from
`buck2_interpreter_for_build`) are not part of the source file; where a
property depends on them they are modelled from the specification, and
each such definition carries a doc comment saying so.
-/

set_option maxRecDepth 4000

deriving instance DecidableEq for Except

namespace AnonTargets

/-- Modelled from the spec: a build configuration (`buck2_core`'s
`Configuration`), opaque here; `unspecified` is the configuration
produced by `Configuration::unspecified()` used by `AnonAttrCtx`,
`unspecifiedExec` the placeholder an empty execution-platform
resolution yields.  Other configurations are abstract data. -/
inductive Configuration where
  | unspecified : Configuration
  | unspecifiedExec : Configuration
  | data : String → Configuration
deriving DecidableEq

/-- Modelled from the spec: `buck2_core`'s `Package`, a cell name plus a
cell-relative path.  Only the textual content matters here. -/
structure Package where
  cell : String
  path : String
deriving DecidableEq

/-- Modelled from the spec: `buck2_core`'s `TargetLabel`, a package plus
a target name. -/
structure TargetLabel where
  pkg : Package
  name : String
deriving DecidableEq

/-- String form of a target label, `cell//package/path:name`, matching
the `Display` implementation exercised by the source's unit test. -/
def TargetLabel.str (l : TargetLabel) : String :=
  l.pkg.cell ++ "//" ++ l.pkg.path ++ ":" ++ l.name

/-- Modelled from the spec: `ProvidersName` (default or named
sub-providers) of a providers label. -/
inductive ProvidersName where
  | default : ProvidersName
  | named : List String → ProvidersName
deriving DecidableEq

/-- Modelled from the spec: `buck2_core`'s `ProvidersLabel`. -/
structure ProvidersLabel where
  target : TargetLabel
  name : ProvidersName
deriving DecidableEq

/-- Modelled from the spec: a configured target label (target label plus
configuration). -/
structure ConfiguredTargetLabel where
  target : TargetLabel
  cfg : Configuration
deriving DecidableEq

/-- Modelled from the spec: `ConfiguredProvidersLabel`, the payload of a
resolved Starlark `Label` value. -/
structure ConfiguredProvidersLabel where
  target : ConfiguredTargetLabel
  name : ProvidersName
deriving DecidableEq

/-- Modelled from the spec: an execution platform.  Per §4.2/§3 of the
specification it carries both a target configuration (`cfg()`) and a
separate execution configuration; the anonymous target must inherit the
former. -/
structure ExecutionPlatform where
  target_configuration : Configuration
  execution_configuration : Configuration
deriving DecidableEq

/-- Modelled from the spec: `ExecutionPlatformResolution`, an optional
resolved platform plus the list of skipped candidates. -/
structure ExecutionPlatformResolution where
  platform : Option ExecutionPlatform
  skipped : List String
deriving DecidableEq

/-- Modelled from the spec: `ExecutionPlatformResolution::cfg()` returns
the resolved platform's target configuration (spec §4.2: "the execution
platform's target configuration (not its execution configuration)"). -/
def ExecutionPlatformResolution.cfg (r : ExecutionPlatformResolution) : Configuration :=
  match r.platform with
  | some p => p.target_configuration
  | none => Configuration.unspecifiedExec

/-- Modelled from the spec: `StarlarkRuleType`, identified by its import
path and name; `AnonTargetKey::new` uses `rule.rule_type()`. -/
structure RuleType where
  import_path : String
  name : String
deriving DecidableEq

/-- The error enum `AnonTargetsError` of the source file, together with
the modelled errors of external collaborators that flow through the same
`anyhow::Error` channel:
* `invalidTargetName` stands for `buck2_core`'s `TargetName` validation
  error (reached through the pattern lexer),
* `ambiguousPattern` stands for the error `reject_ambiguity` in
  `buck2_core` returns for an ambiguous pattern — because
  `AnonTargetsError` is a private enum of `anon_targets.rs`, code in
  `buck2_core` cannot construct `NotTargetLabel`, so this error is
  necessarily distinct from it,
* `attrTypeMismatch` stands for an attribute coercer's type error,
* `contextMsg`/`contextErr` model `anyhow`'s `with_context` wrapping
  (a string context in `AnonTargetKey::new`, an error-valued context in
  `parse_target_label`). -/
inductive AnonError where
  | assertNoPromisesFailed : AnonError
  | invalidNameType : String → String → AnonError
  | notTargetLabel : String → AnonError
  | cantParseDuringCoerce : String → AnonError
  | unknownAttribute : String → AnonError
  | invalidTargetName : String → AnonError
  | ambiguousPattern : String → AnonError
  | attrTypeMismatch : String → String → AnonError
  | contextMsg : String → AnonError → AnonError
  | contextErr : AnonError → AnonError → AnonError
deriving DecidableEq

/-! ### The pattern lexer (modelled) -/

/-- Modelled from the spec: `buck2_core::pattern::PatternData` for
`TargetPattern` — a concrete target in a package, all targets in a
package, or a recursive package wildcard. -/
inductive PatternData where
  | targetInPackage : String → String → PatternData
  | allTargetsInPackage : String → PatternData
  | recursive : String → PatternData
deriving DecidableEq

/-- Modelled from the spec: the lexer output before ambiguity is
rejected — either definite pattern data or an ambiguous remainder
(a remainder with no `:` that could denote a package or a target). -/
inductive PatternDataOrAmbiguous where
  | data : PatternData → PatternDataOrAmbiguous
  | ambiguous : String → PatternDataOrAmbiguous
deriving DecidableEq

/-- Modelled from the spec: `reject_ambiguity` — definite data passes
through; an ambiguous remainder fails with `buck2_core`'s ambiguity
error (which, `AnonTargetsError` being private to `anon_targets.rs`,
cannot be `NotTargetLabel`). -/
def PatternDataOrAmbiguous.reject_ambiguity :
    PatternDataOrAmbiguous → Except AnonError PatternData
  | .data d => .ok d
  | .ambiguous p => .error (.ambiguousPattern p)

/-- Modelled from the spec: the result of `lex_target_pattern` — an
optional cell alias (the text before `//`) and the lexed remainder. -/
structure PatternParts where
  cell_alias : Option String
  pattern : PatternDataOrAmbiguous
deriving DecidableEq

/-- Split a character list at the first occurrence of `sep`, returning
the parts before and after it. -/
def splitOnceChars (sep : List Char) : List Char → Option (List Char × List Char)
  | [] => none
  | c :: rest =>
    if sep.isPrefixOf (c :: rest) then some ([], (c :: rest).drop sep.length)
    else
      match splitOnceChars sep rest with
      | some (a, b) => some (c :: a, b)
      | none => none

/-- A character acceptable inside a lexed target name: anything except
the separators `:` and `/`. -/
def validTargetNameChar (c : Char) : Bool :=
  c ≠ ':' && c ≠ '/'

/-- Modelled from the spec: target-name validity (nonempty, no
separator characters), standing for `buck2_core`'s `TargetName`
validation. -/
def validTargetName (s : String) : Bool :=
  !s.isEmpty && s.data.all validTargetNameChar

/-- Modelled from the spec: `lex_target_pattern::<TargetPattern>` —
grammar `[cell//]package/path:name` (spec §4.1/§6): the text before the
first `//`, when present, is the cell alias; a remainder `...` or
ending in `/...` is a recursive pattern; a remainder with a `:` is all
targets in the package when the target part is empty, a concrete
target in a package when the target part is a valid target name, and a
lex error otherwise; a remainder without `:` is ambiguous. -/
def lex_target_pattern (x : String) (_strip_package_trailing_slash : Bool) :
    Except AnonError PatternParts :=
  let (alias?, rest) :=
    match splitOnceChars ['/', '/'] x.data with
    | some (a, b) => (some (String.mk a), b)
    | none => (none, x.data)
  if rest = ['.', '.', '.'] || ['/', '.', '.', '.'].isSuffixOf rest then
    .ok ⟨alias?, .data (.recursive (String.mk (rest.take (rest.length - 4))))⟩
  else
    match splitOnceChars [':'] rest with
    | some (pkg, tgt) =>
      if tgt.isEmpty then .ok ⟨alias?, .data (.allTargetsInPackage (String.mk pkg))⟩
      else if tgt.all validTargetNameChar then
        .ok ⟨alias?, .data (.targetInPackage (String.mk pkg) (String.mk tgt))⟩
      else .error (.invalidTargetName (String.mk tgt))
    | none => .ok ⟨alias?, .ambiguous (String.mk rest)⟩

/-! ### `AnonTargetKey`'s name handling (from the source) -/

/-- Source: `AnonTargetKey::parse_target_label` from the source: lex the text
(wrapping a lex failure with the `NotTargetLabel` context), default the
cell alias to the root cell, reject ambiguity (propagating that error
unwrapped), accept exactly a concrete target-in-package, and fail any
other pattern shape with `NotTargetLabel`. -/
def parse_target_label (x : String) : Except AnonError TargetLabel :=
  match lex_target_pattern x false with
  | .error e => .error (.contextErr (.notTargetLabel x) e)
  | .ok lexed =>
    let cell := lexed.cell_alias.getD ""
    match lexed.pattern.reject_ambiguity with
    | .error e => .error e
    | .ok (.targetInPackage package target) =>
      .ok ⟨⟨cell, package⟩, target⟩
    | .ok _ => .error (.notTargetLabel x)

/-- Source: `AnonTargetKey::create_name` from the source: a synthetic label in
the reserved `anon` cell with an empty package, named after the rule
type; `TargetName::new` validation is modelled by `validTargetName`. -/
def create_name (rule_name : String) : Except AnonError TargetLabel :=
  if validTargetName rule_name then
    .ok ⟨⟨"anon", ""⟩, rule_name⟩
  else
    .error (.invalidTargetName rule_name)

/-- The Starlark values reaching the coercer: a resolved `Label`, a
string, or other values (modelled by the remaining constructors) which
only matter through their type name and display form. -/
inductive Value where
  | label : ConfiguredProvidersLabel → Value
  | str : String → Value
  | int : Int → Value
  | bool : Bool → Value
  | none : Value
deriving DecidableEq

/-- Source: `Value::get_type` of the modelled Starlark values. -/
def Value.get_type : Value → String
  | .label _ => "label"
  | .str _ => "string"
  | .int _ => "int"
  | .bool _ => "bool"
  | .none => "NoneType"

/-- Display form of the modelled Starlark values (used in the
`InvalidNameType` error message). -/
def Value.display : Value → String
  | .label l => l.target.target.str
  | .str s => s
  | .int n => toString n
  | .bool b => if b then "True" else "False"
  | .none => "None"

/-- Source: `AnonTargetKey::coerce_name` from the source: a resolved label
yields its unconfigured target label; a string is parsed with
`parse_target_label`; anything else fails with `InvalidNameType`. -/
def coerce_name : Value → Except AnonError TargetLabel
  | .label l => .ok l.target.target
  | .str s => parse_target_label s
  | v => .error (.invalidNameType v.get_type v.display)

/-! ### The restricted coercion context and attribute coercion -/

/-- Source: `AnonAttrCtx` from the source: an unspecified configuration and an
empty transition mapping. -/
structure AnonAttrCtx where
  cfg : Configuration
  transitions : List Unit
deriving DecidableEq

/-- Source: `AnonAttrCtx::new` from the source. -/
def AnonAttrCtx.new : AnonAttrCtx :=
  ⟨Configuration.unspecified, []⟩

/-- Source: `AnonAttrCtx`'s `AttrCoercionContext::coerce_label` from the
source: always fails with `CantParseDuringCoerce` carrying the input. -/
def AnonAttrCtx.coerce_label (_self : AnonAttrCtx) (value : String) :
    Except AnonError ProvidersLabel :=
  .error (.cantParseDuringCoerce value)

/-- Modelled from the spec: `CoercedPath`, opaque content. -/
structure CoercedPath where
  path : String
deriving DecidableEq

/-- Source: `AnonAttrCtx`'s `AttrCoercionContext::coerce_path` from the source:
always fails with `CantParseDuringCoerce` carrying the input. -/
def AnonAttrCtx.coerce_path (_self : AnonAttrCtx) (value : String)
    (_allow_directory : Bool) : Except AnonError CoercedPath :=
  .error (.cantParseDuringCoerce value)

/-- Source: `AnonAttrCtx`'s `AttrCoercionContext::coerce_target_pattern` from
the source: always fails with `CantParseDuringCoerce` carrying the
input. -/
def AnonAttrCtx.coerce_target_pattern (_self : AnonAttrCtx) (pattern : String) :
    Except AnonError PatternParts :=
  .error (.cantParseDuringCoerce pattern)

/-- Source: `AnonAttrCtx`'s `AttrCoercionContext::visit_query_function_literals`
from the source: always fails with `CantParseDuringCoerce` carrying the
query text (visitor and parsed expression are opaque). -/
def AnonAttrCtx.visit_query_function_literals (_self : AnonAttrCtx)
    (_visitor : Unit) (_expr : Unit) (query : String) : Except AnonError Unit :=
  .error (.cantParseDuringCoerce query)

/-- Modelled from the spec: the attribute types whose coercers this
development needs; the real coercers live in
`buck2_interpreter_for_build` and are identified here by the declared
attribute type. -/
inductive AttrTypeKind where
  | string : AttrTypeKind
  | label : AttrTypeKind
  | int : AttrTypeKind
  | bool : AttrTypeKind
deriving DecidableEq

/-- Name of an attribute type, for error messages. -/
def AttrTypeKind.typeName : AttrTypeKind → String
  | .string => "string"
  | .label => "label"
  | .int => "int"
  | .bool => "bool"

/-- Modelled from the spec: `buck2_node`'s `Attribute` as far as the
source uses it — its coercer, identified by the declared type. -/
structure Attribute where
  coercer : AttrTypeKind
deriving DecidableEq

/-- Modelled from the spec: a coerced (not yet configured) attribute
value. -/
inductive CoercedAttr where
  | string : String → CoercedAttr
  | label : ProvidersLabel → CoercedAttr
  | int : Int → CoercedAttr
  | bool : Bool → CoercedAttr
deriving DecidableEq

/-- Modelled from the spec: a configured attribute value (labels carry
the configuration applied at configuration time). -/
inductive ConfiguredAttr where
  | string : String → ConfiguredAttr
  | label : ConfiguredProvidersLabel → ConfiguredAttr
  | int : Int → ConfiguredAttr
  | bool : Bool → ConfiguredAttr
deriving DecidableEq

/-- Modelled from the spec: `coerce_item` of the declared attribute
types (spec §4.1): a label-typed attribute resolves a string through
the context's `coerce_label` (which the restricted context refuses) and
accepts an already-resolved label value by dropping its configuration;
the scalar types accept exactly their own shape; everything else is a
type mismatch. -/
def coerce_item (t : AttrTypeKind) (ctx : AnonAttrCtx) (v : Value) :
    Except AnonError CoercedAttr :=
  match t, v with
  | .string, .str s => .ok (.string s)
  | .label, .str s =>
    match ctx.coerce_label s with
    | .error e => .error e
    | .ok l => .ok (.label l)
  | .label, .label l => .ok (.label ⟨l.target.target, l.name⟩)
  | .int, .int n => .ok (.int n)
  | .bool, .bool b => .ok (.bool b)
  | t, v => .error (.attrTypeMismatch t.typeName v.get_type)

/-- Modelled from the spec: `CoercedAttr::configure` — configures a
coerced value against the context's configuration (labels get
`ctx.cfg`; scalars pass through). -/
def CoercedAttr.configure (a : CoercedAttr) (ctx : AnonAttrCtx) :
    Except AnonError ConfiguredAttr :=
  match a with
  | .string s => .ok (.string s)
  | .label l => .ok (.label ⟨⟨l.target, ctx.cfg⟩, l.name⟩)
  | .int n => .ok (.int n)
  | .bool b => .ok (.bool b)

/-- Source: `AnonTargetKey::coerce_attr` from the source: make a fresh
`AnonAttrCtx`, coerce in not-configurable mode, then immediately
configure the coerced value with the same context. -/
def coerce_attr (attr : Attribute) (x : Value) : Except AnonError ConfiguredAttr :=
  let ctx := AnonAttrCtx.new
  match coerce_item attr.coercer ctx x with
  | .error e => .error e
  | .ok a => a.configure ctx

/-! ### Ordered maps (assoc lists with insertion order) -/

/-- Key lookup in an insertion-ordered association list (the view of
`OrderedMap`/`SmallMap` used by the source). -/
def lookupKey {β : Type} : List (String × β) → String → Option β
  | [], _ => none
  | (k, v) :: rest, key => if k = key then some v else lookupKey rest key

/-- Source: `OrderedMap::insert`: replace in place when the key is present,
append otherwise. -/
def insertOM {β : Type} (k : String) (v : β) : List (String × β) → List (String × β)
  | [] => [(k, v)]
  | (k1, v1) :: rest =>
    if k1 = k then (k, v) :: rest else (k1, v1) :: insertOM k v rest

/-- The keys of an association list. -/
def keysOf {β : Type} (l : List (String × β)) : List String :=
  l.map Prod.fst

/-! ### `AnonTargetKey::new` -/

/-- Modelled from the spec: `FrozenRuleCallable` as the source uses it —
its rule type and its declared attribute schema
(`rule.attributes().attribute(k)` is `lookupKey` on the schema). -/
structure FrozenRuleCallable where
  rule_type : RuleType
  attributes : List (String × Attribute)
deriving DecidableEq

/-- Source: `AnonTarget` (from `buck2_execute`, constructed field-by-field by
the source): rule type, name, ordered attribute map and configuration;
identity is structural over all fields. -/
structure AnonTarget where
  rule_type : RuleType
  name : TargetLabel
  attrs : List (String × ConfiguredAttr)
  cfg : Configuration
deriving DecidableEq

/-- Source: `AnonTarget::exec_cfg` — the stored configuration (the source's
accessor for the fourth field). -/
def AnonTarget.exec_cfg (t : AnonTarget) : Configuration :=
  t.cfg

/-- Source: `AnonTargetKey`: a handle over a shared `AnonTarget` (the `Arc` is
identity in this embedding); equality and hash delegate to the
target. -/
structure AnonTargetKey where
  target : AnonTarget
deriving DecidableEq

/-- One iteration of the loop in `AnonTargetKey::new`: the `"name"`
entry goes through `coerce_name`; any other entry is looked up in the
rule's attribute schema (failing with `UnknownAttribute` when absent),
coerced with `coerce_attr` (a failure gaining the `when coercing
attribute` context), and inserted into the accumulated ordered map. -/
def stepEntry (spec : List (String × Attribute)) (e : String × Value)
    (nameAcc : Option TargetLabel) (attrsAcc : List (String × ConfiguredAttr)) :
    Except AnonError (Option TargetLabel × List (String × ConfiguredAttr)) :=
  if e.1 = "name" then
    match coerce_name e.2 with
    | .error err => .error err
    | .ok n => .ok (some n, attrsAcc)
  else
    match lookupKey spec e.1 with
    | none => .error (.unknownAttribute e.1)
    | some attr =>
      match coerce_attr attr e.2 with
      | .error err =>
        .error (.contextMsg ("when coercing attribute `" ++ e.1 ++ "`") err)
      | .ok a => .ok (nameAcc, insertOM e.1 a attrsAcc)

/-- The loop of `AnonTargetKey::new` over the collected dictionary
entries. -/
def coerceEntries (spec : List (String × Attribute)) :
    List (String × Value) → Option TargetLabel → List (String × ConfiguredAttr) →
    Except AnonError (Option TargetLabel × List (String × ConfiguredAttr))
  | [], nameAcc, attrsAcc => .ok (nameAcc, attrsAcc)
  | e :: rest, nameAcc, attrsAcc =>
    match stepEntry spec e nameAcc attrsAcc with
    | .error err => .error err
    | .ok (nameAcc1, attrsAcc1) => coerceEntries spec rest nameAcc1 attrsAcc1

/-- Source: `AnonTargetKey::new` from the source: run the entry loop, synthesize
a name with `create_name` when none was supplied, and assemble the
`AnonTarget` from the rule type, the name, the coerced attribute map
and the execution platform's `cfg()`. -/
def AnonTargetKey.new (execution_platform : ExecutionPlatformResolution)
    (rule : FrozenRuleCallable) (attributes : List (String × Value)) :
    Except AnonError AnonTargetKey :=
  match coerceEntries rule.attributes attributes none [] with
  | .error e => .error e
  | .ok (nameOpt, attrs) =>
    match (match nameOpt with
           | none => create_name rule.rule_type.name
           | some n => .ok n : Except AnonError TargetLabel) with
    | .error e => .error e
    | .ok name => .ok ⟨⟨rule.rule_type, name, attrs, execution_platform.cfg⟩⟩

/-! ### Structural equality and hash of `AnonTarget` -/

/-- Modelled from the spec: equality of the attribute map as a mapping
(`starlark_map::SmallMap`'s order-insensitive `Eq`, which the derived
`AnonTarget` equality uses): same size, and every entry of one is the
entry the other holds for that key. -/
def attrsEqMap (a b : List (String × ConfiguredAttr)) : Bool :=
  a.length = b.length && a.all fun e => lookupKey b e.1 = some e.2

/-- Structural equality of `AnonTarget`s: field-wise, with the
attribute map compared as a mapping. -/
def AnonTarget.structEq (t1 t2 : AnonTarget) : Bool :=
  t1.rule_type = t2.rule_type && t1.name = t2.name &&
    attrsEqMap t1.attrs t2.attrs && t1.cfg = t2.cfg

/-- Equality of `AnonTargetKey`s delegates to the underlying
`AnonTarget`'s structural equality. -/
def AnonTargetKey.structEq (k1 k2 : AnonTargetKey) : Bool :=
  k1.target.structEq k2.target

/-- A deterministic hash of a string (stand-in for the Rust hasher). -/
def hashString (s : String) : Nat :=
  s.data.foldl (fun h c => h * 1000003 + c.toNat) 5381

/-- Hash of a configuration. -/
def hashConfiguration : Configuration → Nat
  | .unspecified => 11
  | .unspecifiedExec => 13
  | .data s => 17 + hashString s

/-- Hash of a target label. -/
def hashTargetLabel (l : TargetLabel) : Nat :=
  hashString l.pkg.cell * 31 + hashString l.pkg.path * 7 + hashString l.name

/-- Hash of a providers name. -/
def hashProvidersName : ProvidersName → Nat
  | .default => 3
  | .named l => 5 + (l.map hashString).sum

/-- Hash of a configured attribute value. -/
def hashConfiguredAttr : ConfiguredAttr → Nat
  | .string s => 2 + hashString s
  | .label l => 3 + hashTargetLabel l.target.target * 3 +
      hashConfiguration l.target.cfg * 5 + hashProvidersName l.name
  | .int n => 5 + n.natAbs * 2 + (if n < 0 then 1 else 0)
  | .bool b => if b then 7 else 8

/-- Modelled from the spec: the hash of the attribute map is
order-insensitive (`SmallMap`'s unordered hash): the sum of per-entry
hashes. -/
def hashAttrs (attrs : List (String × ConfiguredAttr)) : Nat :=
  (attrs.map fun e => hashString e.1 * 131 + hashConfiguredAttr e.2).sum

/-- Structural hash of an `AnonTarget`, field-wise with the unordered
attribute-map hash. -/
def AnonTarget.hash (t : AnonTarget) : Nat :=
  hashString t.rule_type.import_path * 1009 + hashString t.rule_type.name * 101 +
    hashTargetLabel t.name * 37 + hashAttrs t.attrs * 11 + hashConfiguration t.cfg

/-- Hash of an `AnonTargetKey` delegates to the target's hash. -/
def AnonTargetKey.hash (k : AnonTargetKey) : Nat :=
  k.target.hash

/-! ### The registry -/

/-- A promise handle (`StarlarkPromise` is opaque to this core beyond
identity and being resolved once). -/
abbrev Promise := Nat

/-- Source: `AnonTargetsRegistry` from the source: the inherited execution
platform and the ordered pending `(promise, key)` entries. -/
structure AnonTargetsRegistry where
  execution_platform : ExecutionPlatformResolution
  entries : List (Promise × AnonTargetKey)
deriving DecidableEq

/-- Source: `AnonTargetsRegistry::new` from the source. -/
def AnonTargetsRegistry.new (execution_platform : ExecutionPlatformResolution) :
    AnonTargetsRegistry :=
  ⟨execution_platform, []⟩

/-- Source: `AnonTargetsRegistry::register` from the source: build the key with
`AnonTargetKey::new`; on failure return the error with the registry
unchanged (the `?` returns before the push); on success append the
`(promise, key)` pair. -/
def AnonTargetsRegistry.register (r : AnonTargetsRegistry) (promise : Promise)
    (rule : FrozenRuleCallable) (attributes : List (String × Value)) :
    Except AnonError Unit × AnonTargetsRegistry :=
  match AnonTargetKey.new r.execution_platform rule attributes with
  | .error e => (.error e, r)
  | .ok key => (.ok (), ⟨r.execution_platform, r.entries ++ [(promise, key)]⟩)

/-- Source: `AnonTargetsRegistry::get_promises` from the source: `none` on an
empty pending list; otherwise `mem::swap` with a fresh registry sharing
the execution platform — the first component is the value returned (the
drained batch), the second the registry left in place. -/
def AnonTargetsRegistry.get_promises (r : AnonTargetsRegistry) :
    Option AnonTargetsRegistry × AnonTargetsRegistry :=
  if r.entries.isEmpty then (none, r)
  else (some r, AnonTargetsRegistry.new r.execution_platform)

/-- Source: `AnonTargetsRegistry::assert_no_promises` from the source. -/
def AnonTargetsRegistry.assert_no_promises (r : AnonTargetsRegistry) :
    Except AnonError Unit :=
  if r.entries.isEmpty then .ok () else .error .assertNoPromisesFailed

/-! ### `run_promises` -/

/-- An analysis result: the frozen provider-collection value (an opaque
handle) and the deferred-action table (opaque). -/
structure AnalysisResult where
  provider_collection : Nat
  deferred : List Nat
deriving DecidableEq, Inhabited

/-- The first error among `results` in completion order `sched` (the
order in which the concurrently running resolutions finish), as
`futures::future::try_join_all` observes it. -/
def firstErrorIn {α : Type} (results : List (Except AnonError α)) (sched : List Nat) :
    Option AnonError :=
  sched.findSome? fun i =>
    match results.get? i with
    | some (.error e) => some e
    | _ => none

/-- Collect a list of results, all of which are `ok`, into the list of
payloads (the success path of `try_join_all`, which keeps original
positions regardless of completion order). -/
def collectResults {α : Type} : List (Except AnonError α) → Except AnonError (List α)
  | [] => .ok []
  | .ok v :: rest =>
    match collectResults rest with
    | .error e => .error e
    | .ok vs => .ok (v :: vs)
  | .error e :: _ => .error e

/-- Source: `futures::future::try_join_all` over already-determined results,
parameterized by the completion schedule `sched` (a permutation of the
indices): the first error in completion order aborts; otherwise the
payloads are returned in original order. -/
def try_join_all {α : Type} (results : List (Except AnonError α)) (sched : List Nat) :
    Except AnonError (List α) :=
  match firstErrorIn results sched with
  | some e => .error e
  | none => collectResults results

/-- Source: `AnonTargetsRegistry::run_promises` from the source: resolve every
pending key in parallel (`try_join_all`, with completion order
`sched`), then bind the promises sequentially in registration order,
each to its result's frozen provider-collection value.  `resolve`
stands for `AnonTargetKey::resolve` (the memoized engine computation);
the bindings performed are returned as a list. -/
def AnonTargetsRegistry.run_promises (r : AnonTargetsRegistry)
    (resolve : AnonTargetKey → Except AnonError AnalysisResult) (sched : List Nat) :
    Except AnonError (List (Promise × Nat)) :=
  match try_join_all (r.entries.map fun e => resolve e.2) sched with
  | .error e => .error e
  | .ok vals =>
    .ok ((r.entries.zip vals).map fun pv => (pv.1.1, pv.2.provider_collection))

/-! ### `run_analysis` (modelled collaborators) -/

/-- A rule implementation as `run_analysis_impl` consumes it: from the
resolved attributes and the execution-platform resolution to the
analysis result (the Starlark evaluation, freezing and provider
extraction are opaque external machinery folded into this function). -/
abbrev RuleImpl :=
  List (String × ConfiguredAttr) → ExecutionPlatformResolution →
    Except AnonError AnalysisResult

/-- Modelled from the spec: the external collaborators
`run_analysis_impl` calls — `get_rule_impl` and
`find_execution_platform_by_configuration` (both absent from the
source file). -/
structure AnalysisCollaborators where
  get_rule_impl : RuleType → Except AnonError RuleImpl
  find_execution_platform_by_configuration :
    Configuration → Configuration → Except AnonError ExecutionPlatform

/-- Source: `AnonTargetKey::run_analysis_impl` from the source, over the
modelled collaborators: look up the rule implementation for the
target's rule type; resolve the attributes (with an empty resolution
context the configured attributes pass through); resolve the execution
platform by passing the target's stored configuration as both the
target and the execution configuration; invoke the rule implementation
with the attributes and the wrapped platform resolution. -/
def run_analysis_impl (collab : AnalysisCollaborators) (t : AnonTarget) :
    Except AnonError AnalysisResult :=
  match collab.get_rule_impl t.rule_type with
  | .error e => .error e
  | .ok rule_impl =>
    let resolved_attrs := t.attrs
    match collab.find_execution_platform_by_configuration t.exec_cfg t.exec_cfg with
    | .error e => .error e
    | .ok platform =>
      let exec_resolution : ExecutionPlatformResolution := ⟨some platform, []⟩
      rule_impl resolved_attrs exec_resolution

/-! Deleting the entry of one key. -/

/-- Remove the first entry carrying key `k`. -/
def eraseKey {β : Type} (k : String) : List (String × β) → List (String × β)
  | [] => []
  | (k1, v1) :: rest => if k1 = k then rest else (k1, v1) :: eraseKey k rest


/-- Two association lists are equivalent as mappings: duplicate-free
keys on both sides and identical lookups. -/
def MapEquiv {β : Type} (a b : List (String × β)) : Prop :=
  (keysOf a).Nodup ∧ (keysOf b).Nodup ∧ ∀ k, lookupKey a k = lookupKey b k


/-- Relation between the outcomes of two runs of the loop in
`AnonTargetKey::new`: both fail, or both succeed with the same name
outcome and attribute maps equal as mappings. -/
def ResultEquiv :
    Except AnonError (Option TargetLabel × List (String × ConfiguredAttr)) →
    Except AnonError (Option TargetLabel × List (String × ConfiguredAttr)) → Prop
  | .ok (n1, a1), .ok (n2, a2) => n1 = n2 ∧ MapEquiv a1 a2
  | .error _, .error _ => True
  | .ok _, .error _ => False
  | .error _, .ok _ => False


/-- The provider-collection value a key's resolution binds, with `0`
for a failed resolution (only consulted on the success path). -/
def resolvedProviderValue (resolve : AnonTargetKey → Except AnonError AnalysisResult)
    (k : AnonTargetKey) : Nat :=
  match resolve k with
  | .ok v => v.provider_collection
  | .error _ => 0

/-! ### Concrete example inputs used by the closed witness theorems -/

/-- Concrete collaborators: a constant rule implementation and an
execution-platform resolver echoing the requested configuration. -/
def collabW : AnalysisCollaborators :=
  ⟨fun _ => .ok (fun _ _ => .ok ⟨42, []⟩), fun c _ => .ok ⟨c, c⟩⟩

/-- An execution platform resolution with distinct target and execution
configurations. -/
def epW : ExecutionPlatformResolution :=
  ⟨some ⟨.data "target-cfg", .data "exec-cfg"⟩, []⟩

/-- A rule with a three-attribute schema. -/
def ruleW : FrozenRuleCallable :=
  ⟨⟨"root//rules.bzl", "my_rule"⟩,
    [("srcs", ⟨.string⟩), ("count", ⟨.int⟩), ("dep", ⟨.label⟩)]⟩

/-- A first concrete anonymous target key. -/
def keyW1 : AnonTargetKey :=
  ⟨⟨⟨"root//rules.bzl", "my_rule"⟩, ⟨⟨"", "pkg"⟩, "a"⟩, [], .data "target-cfg"⟩⟩

/-- A second concrete anonymous target key. -/
def keyW2 : AnonTargetKey :=
  ⟨⟨⟨"root//rules.bzl", "my_rule"⟩, ⟨⟨"", "pkg"⟩, "bb"⟩, [], .data "target-cfg"⟩⟩

/-- A third concrete anonymous target key. -/
def keyW3 : AnonTargetKey :=
  ⟨⟨⟨"root//rules.bzl", "my_rule"⟩, ⟨⟨"", "pkg"⟩, "ccc"⟩, [], .data "target-cfg"⟩⟩

/-- A registry with three pending registrations. -/
def regW : AnonTargetsRegistry :=
  ⟨epW, [(0, keyW1), (1, keyW2), (2, keyW3)]⟩

/-- A resolution function distinguishing the three keys by the length
of their target names. -/
def resolveW : AnonTargetKey → Except AnonError AnalysisResult :=
  fun k => .ok ⟨k.target.name.name.length, []⟩

/-- A concrete attribute dictionary, in one iteration order. -/
def attrsW1 : List (String × Value) :=
  [("name", .str "//pkg:tgt"), ("srcs", .str "x"), ("count", .int 3)]

/-- The same attribute dictionary, in another iteration order. -/
def attrsW2 : List (String × Value) :=
  [("count", .int 3), ("name", .str "//pkg:tgt"), ("srcs", .str "x")]

/-- The key built from `attrsW1`. -/
def keyWa : AnonTargetKey :=
  ⟨⟨⟨"root//rules.bzl", "my_rule"⟩, ⟨⟨"", "pkg"⟩, "tgt"⟩,
    [("srcs", .string "x"), ("count", .int 3)], .data "target-cfg"⟩⟩

/-- The key built from `attrsW2`. -/
def keyWb : AnonTargetKey :=
  ⟨⟨⟨"root//rules.bzl", "my_rule"⟩, ⟨⟨"", "pkg"⟩, "tgt"⟩,
    [("count", .int 3), ("srcs", .string "x")], .data "target-cfg"⟩⟩

/-! ### Association-list lemmas -/

@[simp]
theorem lookupKey_nil {β : Type} (k : String) : lookupKey ([] : List (String × β)) k = none :=
  rfl

theorem lookupKey_cons {β : Type} (k1 : String) (v1 : β) (rest : List (String × β))
    (k : String) :
    lookupKey ((k1, v1) :: rest) k = if k1 = k then some v1 else lookupKey rest k :=
  rfl

theorem lookupKey_eq_none_of_not_mem_keys {β : Type} {l : List (String × β)} {k : String}
    (h : k ∉ keysOf l) : lookupKey l k = none := by
  induction l with
  | nil => rfl
  | cons e rest ih =>
    obtain ⟨k1, v1⟩ := e
    have h1 : k1 ≠ k := by
      intro hk
      exact h (by simp [keysOf, hk])
    have h2 : k ∉ keysOf rest := by
      intro hk
      exact h (by simp [keysOf] at hk ⊢; tauto)
    simp [lookupKey_cons, h1, ih h2]

theorem mem_keys_of_lookupKey_eq_some {β : Type} {l : List (String × β)} {k : String} {v : β}
    (h : lookupKey l k = some v) : k ∈ keysOf l := by
  by_contra hk
  rw [lookupKey_eq_none_of_not_mem_keys hk] at h
  exact Option.noConfusion h

theorem mem_of_lookupKey_eq_some {β : Type} {l : List (String × β)} {k : String} {v : β}
    (h : lookupKey l k = some v) : (k, v) ∈ l := by
  induction l with
  | nil => exact Option.noConfusion h
  | cons e rest ih =>
    obtain ⟨k1, v1⟩ := e
    rw [lookupKey_cons] at h
    by_cases hk : k1 = k
    · subst hk
      rw [if_pos rfl] at h
      injection h with h1
      subst h1
      exact List.mem_cons_self _ _
    · rw [if_neg hk] at h
      exact List.mem_cons_of_mem _ (ih h)

theorem lookupKey_eq_some_of_mem_nodup {β : Type} {l : List (String × β)} {k : String} {v : β}
    (hmem : (k, v) ∈ l) (hnd : (keysOf l).Nodup) : lookupKey l k = some v := by
  induction l with
  | nil => exact absurd hmem (List.not_mem_nil _)
  | cons e rest ih =>
    obtain ⟨k1, v1⟩ := e
    simp only [keysOf, List.map_cons, List.nodup_cons] at hnd
    rcases List.mem_cons.mp hmem with heq | hmem1
    · injection heq with hk hv
      subst hk
      subst hv
      simp [lookupKey_cons]
    · have hk1 : k1 ≠ k := by
        rintro rfl
        exact hnd.1 (by simpa [keysOf] using List.mem_map_of_mem Prod.fst hmem1)
      simp only [lookupKey_cons, if_neg hk1]
      exact ih hmem1 hnd.2

theorem perm_cons_eraseKey {β : Type} {l : List (String × β)} {k : String} {v : β}
    (h : lookupKey l k = some v) : l.Perm ((k, v) :: eraseKey k l) := by
  induction l with
  | nil => exact Option.noConfusion h
  | cons e rest ih =>
    obtain ⟨k1, v1⟩ := e
    rw [lookupKey_cons] at h
    by_cases hk : k1 = k
    · rw [if_pos hk] at h
      obtain rfl : v1 = v := Option.some.injEq .. ▸ h
      simp [eraseKey, hk]
    · rw [if_neg hk] at h
      simp only [eraseKey, if_neg hk]
      exact ((ih h).cons (k1, v1)).trans (List.Perm.swap (k, v) (k1, v1) (eraseKey k rest))

theorem lookupKey_eraseKey_of_ne {β : Type} (l : List (String × β)) {k k1 : String}
    (hne : k ≠ k1) : lookupKey (eraseKey k l) k1 = lookupKey l k1 := by
  induction l with
  | nil => rfl
  | cons e rest ih =>
    obtain ⟨k2, v2⟩ := e
    by_cases hk : k2 = k
    · subst hk
      have hins : eraseKey k2 ((k2, v2) :: rest) = rest := by simp [eraseKey]
      rw [hins, lookupKey_cons, if_neg hne]
    · simp only [eraseKey, if_neg hk, lookupKey_cons]
      by_cases hk1 : k2 = k1
      · simp [hk1]
      · simp [hk1, ih]

theorem keysOf_eraseKey_sublist {β : Type} (k : String) (l : List (String × β)) :
    (keysOf (eraseKey k l)).Sublist (keysOf l) := by
  induction l with
  | nil => exact List.Sublist.refl _
  | cons e rest ih =>
    obtain ⟨k1, v1⟩ := e
    by_cases hk : k1 = k
    · simp only [eraseKey, if_pos hk, keysOf, List.map_cons]
      exact List.Sublist.cons k1 (List.Sublist.refl _)
    · simp only [eraseKey, if_neg hk, keysOf, List.map_cons]
      exact ih.cons₂ k1

theorem lookupKey_eraseKey_self {β : Type} {l : List (String × β)} {k : String}
    (hnd : (keysOf l).Nodup) : lookupKey (eraseKey k l) k = none := by
  induction l with
  | nil => rfl
  | cons e rest ih =>
    obtain ⟨k1, v1⟩ := e
    simp only [keysOf, List.map_cons, List.nodup_cons] at hnd
    by_cases hk : k1 = k
    · simp only [eraseKey, if_pos hk]
      exact lookupKey_eq_none_of_not_mem_keys (hk ▸ hnd.1)
    · simp only [eraseKey, if_neg hk, lookupKey_cons, if_neg hk]
      exact ih hnd.2

/-- Two association lists with duplicate-free keys that are equal as
mappings are permutations of one another. -/
theorem perm_of_lookupKey_eq {β : Type} :
    ∀ (l1 l2 : List (String × β)), (keysOf l1).Nodup → (keysOf l2).Nodup →
      (∀ k, lookupKey l1 k = lookupKey l2 k) → l1.Perm l2 := by
  intro l1
  induction l1 with
  | nil =>
    intro l2 _ _ hlook
    cases l2 with
    | nil => exact List.Perm.refl _
    | cons e rest =>
      obtain ⟨k, v⟩ := e
      have := hlook k
      rw [lookupKey_cons, if_pos rfl] at this
      exact Option.noConfusion this
  | cons e t1 ih =>
    intro l2 hnd1 hnd2 hlook
    obtain ⟨k, v⟩ := e
    simp only [keysOf, List.map_cons, List.nodup_cons] at hnd1
    have hk2 : lookupKey l2 k = some v := by
      have h0 := (hlook k).symm
      rw [lookupKey_cons, if_pos rfl] at h0
      exact h0
    have hperm2 : l2.Perm ((k, v) :: eraseKey k l2) := perm_cons_eraseKey hk2
    have hrest : t1.Perm (eraseKey k l2) := by
      refine ih (eraseKey k l2) hnd1.2 ((keysOf_eraseKey_sublist k l2).nodup hnd2) ?_
      intro k1
      by_cases hkk : k = k1
      · subst hkk
        rw [lookupKey_eq_none_of_not_mem_keys (by simpa [keysOf] using hnd1.1),
          lookupKey_eraseKey_self hnd2]
      · rw [lookupKey_eraseKey_of_ne _ hkk]
        have := hlook k1
        rwa [lookupKey_cons, if_neg hkk] at this
    exact (hrest.cons (k, v)).trans hperm2.symm

/-! `insertOM` lemmas. -/

theorem lookupKey_insertOM {β : Type} (l : List (String × β)) (k : String) (v : β)
    (k1 : String) :
    lookupKey (insertOM k v l) k1 = if k = k1 then some v else lookupKey l k1 := by
  induction l with
  | nil => simp [insertOM, lookupKey_cons]
  | cons e rest ih =>
    obtain ⟨k2, v2⟩ := e
    by_cases hk : k2 = k
    · subst hk
      by_cases hk1 : k2 = k1
      · subst hk1
        simp [insertOM, lookupKey_cons]
      · simp [insertOM, lookupKey_cons, hk1]
    · simp only [insertOM, if_neg hk, lookupKey_cons]
      by_cases hk1 : k2 = k1
      · subst hk1
        have : ¬ k = k2 := fun h => hk h.symm
        simp [this]
      · simp [hk1, ih]

theorem keysOf_insertOM_subset {β : Type} (l : List (String × β)) (k : String) (v : β) :
    keysOf (insertOM k v l) ⊆ k :: keysOf l := by
  induction l with
  | nil => simp [insertOM, keysOf]
  | cons e rest ih =>
    obtain ⟨k1, v1⟩ := e
    by_cases hk : k1 = k
    · subst hk
      have hins : insertOM k1 v ((k1, v1) :: rest) = (k1, v) :: rest := by
        simp [insertOM]
      rw [hins]
      intro a ha
      rcases List.mem_cons.mp ha with ha | ha
      · exact ha ▸ List.mem_cons_self _ _
      · exact List.mem_cons_of_mem _ (List.mem_cons_of_mem _ ha)
    · have hins : insertOM k v ((k1, v1) :: rest) = (k1, v1) :: insertOM k v rest := by
        simp [insertOM, hk]
      rw [hins]
      intro a ha
      rcases List.mem_cons.mp ha with ha | ha
      · exact ha ▸ List.mem_cons_of_mem _ (List.mem_cons_self _ _)
      · rcases List.mem_cons.mp (ih ha) with ha | ha
        · exact ha ▸ List.mem_cons_self _ _
        · exact List.mem_cons_of_mem _ (List.mem_cons_of_mem _ ha)

theorem keysOf_insertOM_nodup {β : Type} {l : List (String × β)} (k : String) (v : β)
    (hnd : (keysOf l).Nodup) : (keysOf (insertOM k v l)).Nodup := by
  induction l with
  | nil => simp [insertOM, keysOf]
  | cons e rest ih =>
    obtain ⟨k1, v1⟩ := e
    simp only [keysOf, List.map_cons, List.nodup_cons] at hnd
    by_cases hk : k1 = k
    · subst hk
      have hins : insertOM k1 v ((k1, v1) :: rest) = (k1, v) :: rest := by
        simp [insertOM]
      rw [hins]
      simp only [keysOf, List.map_cons, List.nodup_cons]
      exact ⟨by simpa [keysOf] using hnd.1, hnd.2⟩
    · have hins : insertOM k v ((k1, v1) :: rest) = (k1, v1) :: insertOM k v rest := by
        simp [insertOM, hk]
      rw [hins]
      simp only [keysOf, List.map_cons, List.nodup_cons]
      refine ⟨?_, ih hnd.2⟩
      intro hmem
      rcases List.mem_cons.mp (keysOf_insertOM_subset rest k v hmem) with h | h
      · exact hk h
      · exact hnd.1 (by simpa [keysOf] using h)

theorem MapEquiv.refl {β : Type} {a : List (String × β)} (h : (keysOf a).Nodup) :
    MapEquiv a a :=
  ⟨h, h, fun _ => rfl⟩

theorem MapEquiv.perm {β : Type} {a b : List (String × β)} (h : MapEquiv a b) :
    a.Perm b :=
  perm_of_lookupKey_eq a b h.1 h.2.1 h.2.2

theorem MapEquiv.insert {β : Type} {a b : List (String × β)} (k : String) (v : β)
    (h : MapEquiv a b) : MapEquiv (insertOM k v a) (insertOM k v b) := by
  refine ⟨keysOf_insertOM_nodup k v h.1, keysOf_insertOM_nodup k v h.2.1, ?_⟩
  intro k1
  rw [lookupKey_insertOM, lookupKey_insertOM]
  by_cases hk : k = k1
  · simp [hk]
  · simp [hk, h.2.2 k1]

theorem mapEquiv_chain {β : Type} {a b c : List (String × β)} (h1 : MapEquiv a b)
    (h2 : MapEquiv b c) : MapEquiv a c :=
  ⟨h1.1, h2.2.1, fun k => (h1.2.2 k).trans (h2.2.2 k)⟩

theorem MapEquiv.insertOM_comm {β : Type} {acc1 acc2 : List (String × β)} {k1 k2 : String}
    (v1 v2 : β) (hne : k1 ≠ k2) (h : MapEquiv acc1 acc2) :
    MapEquiv (insertOM k2 v2 (insertOM k1 v1 acc1)) (insertOM k1 v1 (insertOM k2 v2 acc2)) := by
  refine ⟨keysOf_insertOM_nodup _ _ (keysOf_insertOM_nodup _ _ h.1),
    keysOf_insertOM_nodup _ _ (keysOf_insertOM_nodup _ _ h.2.1), ?_⟩
  intro k
  rw [lookupKey_insertOM, lookupKey_insertOM, lookupKey_insertOM, lookupKey_insertOM]
  by_cases h1 : k1 = k
  · by_cases h2 : k2 = k
    · exact absurd (h1.trans h2.symm) hne
    · simp [h1, h2]
  · by_cases h2 : k2 = k
    · simp [h1, h2]
    · simp [h1, h2, h.2.2 k]

/-! ### Order-insensitivity of the `AnonTargetKey::new` loop -/

theorem resultEquiv_chain {r1 r2 r3} (h1 : ResultEquiv r1 r2) (h2 : ResultEquiv r2 r3) :
    ResultEquiv r1 r3 := by
  cases r1 with
  | error e1 =>
    cases r3 with
    | error e3 => trivial
    | ok v3 =>
      cases r2 with
      | error e2 => exact absurd h2 (by cases v3; simp [ResultEquiv])
      | ok v2 => exact absurd h1 (by cases v2; simp [ResultEquiv])
  | ok v1 =>
    cases r3 with
    | error e3 =>
      cases r2 with
      | error e2 => exact absurd h1 (by cases v1; simp [ResultEquiv])
      | ok v2 => exact absurd h2 (by cases v1; cases v2; simp [ResultEquiv])
    | ok v3 =>
      cases r2 with
      | error e2 => exact absurd h1 (by cases v1; simp [ResultEquiv])
      | ok v2 =>
        obtain ⟨n1, a1⟩ := v1
        obtain ⟨n2, a2⟩ := v2
        obtain ⟨n3, a3⟩ := v3
        obtain ⟨hn1, hm1⟩ := h1
        obtain ⟨hn2, hm2⟩ := h2
        exact ⟨hn1.trans hn2, mapEquiv_chain hm1 hm2⟩

/-- The outcome of one loop iteration depends on the accumulated
attribute map only up to mapping equality. -/
theorem stepEntry_congr_acc (spec : List (String × Attribute)) (e : String × Value)
    (nm : Option TargetLabel) {acc1 acc2 : List (String × ConfiguredAttr)}
    (h : MapEquiv acc1 acc2) :
    (∃ err, stepEntry spec e nm acc1 = .error err ∧ stepEntry spec e nm acc2 = .error err) ∨
    (∃ nm1 a1 a2, stepEntry spec e nm acc1 = .ok (nm1, a1) ∧
      stepEntry spec e nm acc2 = .ok (nm1, a2) ∧ MapEquiv a1 a2) := by
  by_cases hname : e.1 = "name"
  · cases hcn : coerce_name e.2 with
    | error err =>
      exact Or.inl ⟨err, by simp [stepEntry, hname, hcn], by simp [stepEntry, hname, hcn]⟩
    | ok n =>
      exact Or.inr ⟨some n, acc1, acc2, by simp [stepEntry, hname, hcn],
        by simp [stepEntry, hname, hcn], h⟩
  · cases hlk : lookupKey spec e.1 with
    | none =>
      exact Or.inl ⟨.unknownAttribute e.1, by simp [stepEntry, hname, hlk],
        by simp [stepEntry, hname, hlk]⟩
    | some attr =>
      cases hca : coerce_attr attr e.2 with
      | error err =>
        exact Or.inl ⟨.contextMsg ("when coercing attribute `" ++ e.1 ++ "`") err,
          by simp [stepEntry, hname, hlk, hca], by simp [stepEntry, hname, hlk, hca]⟩
      | ok a =>
        exact Or.inr ⟨nm, insertOM e.1 a acc1, insertOM e.1 a acc2,
          by simp [stepEntry, hname, hlk, hca], by simp [stepEntry, hname, hlk, hca],
          h.insert e.1 a⟩

/-- Running the loop over the same entries from accumulators equal as
mappings yields equivalent outcomes. -/
theorem coerceEntries_congr_acc (spec : List (String × Attribute)) :
    ∀ (l : List (String × Value)) (nm : Option TargetLabel)
      {acc1 acc2 : List (String × ConfiguredAttr)}, MapEquiv acc1 acc2 →
      ResultEquiv (coerceEntries spec l nm acc1) (coerceEntries spec l nm acc2) := by
  intro l
  induction l with
  | nil =>
    intro nm acc1 acc2 h
    exact ⟨rfl, h⟩
  | cons e rest ih =>
    intro nm acc1 acc2 h
    rcases stepEntry_congr_acc spec e nm h with ⟨err, h1, h2⟩ | ⟨nm1, a1, a2, h1, h2, hm⟩
    · simp only [coerceEntries, h1, h2]
      trivial
    · simp only [coerceEntries, h1, h2]
      exact ih nm1 hm

theorem stepEntry_name (spec : List (String × Attribute)) {e : String × Value}
    (h : e.1 = "name") (nm : Option TargetLabel) (acc : List (String × ConfiguredAttr)) :
    stepEntry spec e nm acc =
      match coerce_name e.2 with
      | .error err => .error err
      | .ok n => .ok (some n, acc) := by
  simp [stepEntry, h]

theorem stepEntry_not_name (spec : List (String × Attribute)) {e : String × Value}
    (h : ¬ e.1 = "name") (nm : Option TargetLabel) (acc : List (String × ConfiguredAttr)) :
    stepEntry spec e nm acc =
      match lookupKey spec e.1 with
      | none => .error (.unknownAttribute e.1)
      | some attr =>
        match coerce_attr attr e.2 with
        | .error err =>
          .error (.contextMsg ("when coercing attribute `" ++ e.1 ++ "`") err)
        | .ok a => .ok (nm, insertOM e.1 a acc) := by
  simp [stepEntry, h]

/-- Order-insensitivity of the `AnonTargetKey::new` loop: running it
over two permuted entry lists with duplicate-free keys, from
accumulators equal as mappings, yields equivalent outcomes. -/
theorem coerceEntries_perm (spec : List (String × Attribute))
    {l1 l2 : List (String × Value)} (hperm : l1.Perm l2) :
    (keysOf l1).Nodup →
    ∀ (nm : Option TargetLabel) {acc1 acc2 : List (String × ConfiguredAttr)},
      MapEquiv acc1 acc2 →
      ResultEquiv (coerceEntries spec l1 nm acc1) (coerceEntries spec l2 nm acc2) := by
  induction hperm with
  | nil =>
    intro _ nm acc1 acc2 h
    exact ⟨rfl, h⟩
  | cons e hp ih =>
    intro hnd nm acc1 acc2 h
    rename_i la lb
    have hndt : (keysOf la).Nodup := by
      simp only [keysOf, List.map_cons, List.nodup_cons] at hnd
      exact hnd.2
    rcases stepEntry_congr_acc spec e nm h with ⟨err, h1, h2⟩ | ⟨nm1, a1, a2, h1, h2, hm⟩
    · simp only [coerceEntries, h1, h2]
      trivial
    · simp only [coerceEntries, h1, h2]
      exact ih hndt nm1 hm
  | swap x y l =>
    intro hnd nm acc1 acc2 h
    have hyx : y.1 ≠ x.1 := by
      simp only [keysOf, List.map_cons, List.nodup_cons, List.mem_cons] at hnd
      exact fun he => hnd.1 (Or.inl he)
    by_cases hy : y.1 = "name"
    · have hx : ¬ x.1 = "name" := fun hh => hyx (hy.trans hh.symm)
      cases hcn : coerce_name y.2 with
      | error err =>
        cases hlk : lookupKey spec x.1 with
        | none =>
          simp only [coerceEntries, stepEntry_name spec hy, stepEntry_not_name spec hx,
            hcn, hlk]
          trivial
        | some attr =>
          cases hca : coerce_attr attr x.2 with
          | error err2 =>
            simp only [coerceEntries, stepEntry_name spec hy, stepEntry_not_name spec hx,
              hcn, hlk, hca]
            trivial
          | ok a =>
            simp only [coerceEntries, stepEntry_name spec hy, stepEntry_not_name spec hx,
              hcn, hlk, hca]
            trivial
      | ok n =>
        cases hlk : lookupKey spec x.1 with
        | none =>
          simp only [coerceEntries, stepEntry_name spec hy, stepEntry_not_name spec hx,
            hcn, hlk]
          trivial
        | some attr =>
          cases hca : coerce_attr attr x.2 with
          | error err2 =>
            simp only [coerceEntries, stepEntry_name spec hy, stepEntry_not_name spec hx,
              hcn, hlk, hca]
            trivial
          | ok a =>
            simp only [coerceEntries, stepEntry_name spec hy, stepEntry_not_name spec hx,
              hcn, hlk, hca]
            exact coerceEntries_congr_acc spec l (some n) (h.insert x.1 a)
    · by_cases hx : x.1 = "name"
      · cases hcn : coerce_name x.2 with
        | error err =>
          cases hlk : lookupKey spec y.1 with
          | none =>
            simp only [coerceEntries, stepEntry_name spec hx, stepEntry_not_name spec hy,
              hcn, hlk]
            trivial
          | some attr =>
            cases hca : coerce_attr attr y.2 with
            | error err2 =>
              simp only [coerceEntries, stepEntry_name spec hx, stepEntry_not_name spec hy,
                hcn, hlk, hca]
              trivial
            | ok a =>
              simp only [coerceEntries, stepEntry_name spec hx, stepEntry_not_name spec hy,
                hcn, hlk, hca]
              trivial
        | ok n =>
          cases hlk : lookupKey spec y.1 with
          | none =>
            simp only [coerceEntries, stepEntry_name spec hx, stepEntry_not_name spec hy,
              hcn, hlk]
            trivial
          | some attr =>
            cases hca : coerce_attr attr y.2 with
            | error err2 =>
              simp only [coerceEntries, stepEntry_name spec hx, stepEntry_not_name spec hy,
                hcn, hlk, hca]
              trivial
            | ok a =>
              simp only [coerceEntries, stepEntry_name spec hx, stepEntry_not_name spec hy,
                hcn, hlk, hca]
              exact coerceEntries_congr_acc spec l (some n) (h.insert y.1 a)
      · cases hlky : lookupKey spec y.1 with
        | none =>
          cases hlkx : lookupKey spec x.1 with
          | none =>
            simp only [coerceEntries, stepEntry_not_name spec hy, stepEntry_not_name spec hx,
              hlky, hlkx]
            trivial
          | some attrx =>
            cases hcax : coerce_attr attrx x.2 with
            | error err =>
              simp only [coerceEntries, stepEntry_not_name spec hy,
                stepEntry_not_name spec hx, hlky, hlkx, hcax]
              trivial
            | ok ax =>
              simp only [coerceEntries, stepEntry_not_name spec hy,
                stepEntry_not_name spec hx, hlky, hlkx, hcax]
              trivial
        | some attry =>
          cases hcay : coerce_attr attry y.2 with
          | error err =>
            cases hlkx : lookupKey spec x.1 with
            | none =>
              simp only [coerceEntries, stepEntry_not_name spec hy,
                stepEntry_not_name spec hx, hlky, hlkx, hcay]
              trivial
            | some attrx =>
              cases hcax : coerce_attr attrx x.2 with
              | error err2 =>
                simp only [coerceEntries, stepEntry_not_name spec hy,
                  stepEntry_not_name spec hx, hlky, hlkx, hcay, hcax]
                trivial
              | ok ax =>
                simp only [coerceEntries, stepEntry_not_name spec hy,
                  stepEntry_not_name spec hx, hlky, hlkx, hcay, hcax]
                trivial
          | ok ay =>
            cases hlkx : lookupKey spec x.1 with
            | none =>
              simp only [coerceEntries, stepEntry_not_name spec hy,
                stepEntry_not_name spec hx, hlky, hlkx, hcay]
              trivial
            | some attrx =>
              cases hcax : coerce_attr attrx x.2 with
              | error err2 =>
                simp only [coerceEntries, stepEntry_not_name spec hy,
                  stepEntry_not_name spec hx, hlky, hlkx, hcay, hcax]
                trivial
              | ok ax =>
                simp only [coerceEntries, stepEntry_not_name spec hy,
                  stepEntry_not_name spec hx, hlky, hlkx, hcay, hcax]
                exact coerceEntries_congr_acc spec l nm
                  (MapEquiv.insertOM_comm ay ax hyx h)
  | trans hp1 hp2 ih1 ih2 =>
    intro hnd nm acc1 acc2 h
    rename_i la lb lc
    have hndmid : (keysOf lb).Nodup := ((hp1.map Prod.fst).nodup_iff).mp hnd
    have e1 := ih1 hnd nm h
    have e2 := ih2 hndmid nm (MapEquiv.refl h.2.1)
    exact resultEquiv_chain e1 e2

theorem mapEquiv_attrsEqMap {a b : List (String × ConfiguredAttr)} (h : MapEquiv a b) :
    attrsEqMap a b = true := by
  simp only [attrsEqMap, Bool.and_eq_true, List.all_eq_true, decide_eq_true_eq]
  refine ⟨h.perm.length_eq, ?_⟩
  intro e he
  rw [← h.2.2 e.1]
  exact lookupKey_eq_some_of_mem_nodup (by simpa using he) h.1

theorem mapEquiv_hashAttrs {a b : List (String × ConfiguredAttr)} (h : MapEquiv a b) :
    hashAttrs a = hashAttrs b :=
  (h.perm.map _).sum_eq

/-- Success of `AnonTargetKey::new` decomposed: the loop succeeded, the
name was resolved from its outcome, and the key's fields are the rule
type, the resolved name, the loop's attribute map and the platform's
`cfg()`. -/
theorem AnonTargetKey.new_ok_iff {ep : ExecutionPlatformResolution}
    {rule : FrozenRuleCallable} {l : List (String × Value)} {t : AnonTargetKey} :
    AnonTargetKey.new ep rule l = .ok t ↔
      ∃ nameOpt attrs name,
        coerceEntries rule.attributes l none [] = .ok (nameOpt, attrs) ∧
        (match nameOpt with
         | none => create_name rule.rule_type.name
         | some n => .ok n : Except AnonError TargetLabel) = .ok name ∧
        t = ⟨⟨rule.rule_type, name, attrs, ep.cfg⟩⟩ := by
  constructor
  · intro h
    unfold AnonTargetKey.new at h
    cases hce : coerceEntries rule.attributes l none [] with
    | error e =>
      rw [hce] at h
      exact Except.noConfusion h
    | ok p =>
      obtain ⟨nameOpt, attrs⟩ := p
      rw [hce] at h
      dsimp only at h
      cases nameOpt with
      | some n =>
        dsimp only at h
        injection h with h1
        exact ⟨some n, attrs, n, rfl, rfl, h1.symm⟩
      | none =>
        dsimp only at h
        cases hn : create_name rule.rule_type.name with
        | error e =>
          rw [hn] at h
          exact Except.noConfusion h
        | ok name =>
          rw [hn] at h
          injection h with h1
          exact ⟨none, attrs, name, rfl, rfl, h1.symm⟩
  · rintro ⟨nameOpt, attrs, name, hce, hn, rfl⟩
    unfold AnonTargetKey.new
    rw [hce]
    dsimp only
    cases nameOpt with
    | some n =>
      injection hn with h1
      subst h1
      rfl
    | none =>
      dsimp only at hn ⊢
      rw [hn]

/-- C1: two calls to `register` — hence to `AnonTargetKey::new` — with
an identical rule, an identical execution platform, and attribute
mappings equal as mappings regardless of the order in which their
entries are iterated construct equal (and hash-equal)
`AnonTargetKey`s, equality being purely structural over the underlying
`AnonTarget` (rule type, name, attributes, configuration). -/
theorem anonTargetKey_new_order_insensitive
    (ep : ExecutionPlatformResolution) (rule : FrozenRuleCallable)
    (l1 l2 : List (String × Value)) (k1 k2 : AnonTargetKey)
    (hnd1 : (keysOf l1).Nodup) (hnd2 : (keysOf l2).Nodup)
    (hlook : ∀ k, lookupKey l1 k = lookupKey l2 k)
    (h1 : AnonTargetKey.new ep rule l1 = .ok k1)
    (h2 : AnonTargetKey.new ep rule l2 = .ok k2) :
    AnonTargetKey.structEq k1 k2 = true ∧ AnonTargetKey.hash k1 = AnonTargetKey.hash k2 := by
  have hperm : l1.Perm l2 := perm_of_lookupKey_eq l1 l2 hnd1 hnd2 hlook
  have req := coerceEntries_perm rule.attributes hperm hnd1 none
    (MapEquiv.refl (by simp [keysOf] :
      (keysOf ([] : List (String × ConfiguredAttr))).Nodup))
  obtain ⟨no1, at1, n1, hce1, hn1, ht1⟩ := AnonTargetKey.new_ok_iff.mp h1
  obtain ⟨no2, at2, n2, hce2, hn2, ht2⟩ := AnonTargetKey.new_ok_iff.mp h2
  rw [hce1, hce2] at req
  have req1 : no1 = no2 ∧ MapEquiv at1 at2 := req
  obtain ⟨hno, hmap⟩ := req1
  subst hno
  rw [hn1] at hn2
  injection hn2 with hn12
  subst hn12
  subst ht1
  subst ht2
  constructor
  · simp [AnonTargetKey.structEq, AnonTarget.structEq, mapEquiv_attrsEqMap hmap]
  · simp only [AnonTargetKey.hash, AnonTarget.hash, mapEquiv_hashAttrs hmap]

/-- Witness for C1: the same attribute dictionary presented in two
iteration orders yields equal, hash-equal keys. -/
theorem anonTargetKey_new_order_insensitive_witness :
    AnonTargetKey.new epW ruleW attrsW1 = .ok keyWa ∧
    AnonTargetKey.new epW ruleW attrsW2 = .ok keyWb ∧
    AnonTargetKey.structEq keyWa keyWb = true ∧
    AnonTargetKey.hash keyWa = AnonTargetKey.hash keyWb := by
  have H := anonTargetKey_new_order_insensitive epW ruleW attrsW1 attrsW2 keyWa keyWb
    (by decide) (by decide)
    (by
      intro k
      by_cases h1 : "name" = k
      · subst h1
        decide
      · by_cases h2 : "srcs" = k
        · subst h2
          decide
        · by_cases h3 : "count" = k
          · subst h3
            decide
          · simp [attrsW1, attrsW2, lookupKey, h1, h2, h3])
    (by decide) (by decide)
  exact ⟨by decide, by decide, H.1, H.2⟩

/-- C4: during anonymous-target attribute coercion, every attempt to
resolve a label from a string (`coerce_label`), a filesystem path
(`coerce_path`), a target pattern (`coerce_target_pattern`) or a query
expression (`visit_query_function_literals`) through the restricted
context fails, for every input string, with `CantParseDuringCoerce`
carrying that string; in particular a string supplied for a
label-typed attribute fails coercion with `CantParseDuringCoerce`. -/
theorem anonAttrCtx_cant_parse_during_coerce :
    (∀ (ctx : AnonAttrCtx) (s : String),
       ctx.coerce_label s = .error (.cantParseDuringCoerce s)) ∧
    (∀ (ctx : AnonAttrCtx) (s : String) (allow_directory : Bool),
       ctx.coerce_path s allow_directory = .error (.cantParseDuringCoerce s)) ∧
    (∀ (ctx : AnonAttrCtx) (s : String),
       ctx.coerce_target_pattern s = .error (.cantParseDuringCoerce s)) ∧
    (∀ (ctx : AnonAttrCtx) (visitor expr : Unit) (q : String),
       ctx.visit_query_function_literals visitor expr q =
         .error (.cantParseDuringCoerce q)) ∧
    (∀ s : String, coerce_attr ⟨.label⟩ (.str s) = .error (.cantParseDuringCoerce s)) :=
  ⟨fun _ _ => rfl, fun _ _ _ => rfl, fun _ _ => rfl, fun _ _ _ _ => rfl, fun _ => rfl⟩

/-- C6 counterexample: `"foo"` does not lex as a concrete
target-in-package (it is ambiguous), so by the claim
`parse_target_label "foo"` would have to fail with
`NotTargetLabel "foo"`; instead it fails with the pattern lexer's
ambiguity error, which is a different error value. -/
theorem parse_target_label_foo_not_notTargetLabel :
    lex_target_pattern "foo" false = .ok ⟨none, .ambiguous "foo"⟩ ∧
    parse_target_label "foo" = .error (.ambiguousPattern "foo") ∧
    AnonError.ambiguousPattern "foo" ≠ .notTargetLabel "foo" ∧
    (∀ e, AnonError.ambiguousPattern "foo" ≠ .contextErr (.notTargetLabel "foo") e) := by
  refine ⟨by decide, by decide, by decide, ?_⟩
  intro e h
  exact AnonError.noConfusion h

/-- C6 (amended): every input that does not lex as exactly one concrete
target-in-package fails, but the error depends on the shape: a lexer
failure is wrapped with the `NotTargetLabel` context; an ambiguous
remainder propagates the lexer's ambiguity error unwrapped (not
`NotTargetLabel`); every other lexed pattern shape (all-targets,
recursive) fails with `NotTargetLabel` carrying the input; a concrete
target-in-package succeeds. -/
theorem parse_target_label_error_taxonomy (x : String) :
    (∀ e, lex_target_pattern x false = .error e →
       parse_target_label x = .error (.contextErr (.notTargetLabel x) e)) ∧
    (∀ a p, lex_target_pattern x false = .ok ⟨a, .ambiguous p⟩ →
       parse_target_label x = .error (.ambiguousPattern p)) ∧
    (∀ a pkg tgt, lex_target_pattern x false = .ok ⟨a, .data (.targetInPackage pkg tgt)⟩ →
       parse_target_label x = .ok ⟨⟨a.getD "", pkg⟩, tgt⟩) ∧
    (∀ a pkg, lex_target_pattern x false = .ok ⟨a, .data (.allTargetsInPackage pkg)⟩ →
       parse_target_label x = .error (.notTargetLabel x)) ∧
    (∀ a pkg, lex_target_pattern x false = .ok ⟨a, .data (.recursive pkg)⟩ →
       parse_target_label x = .error (.notTargetLabel x)) := by
  refine ⟨?_, ?_, ?_, ?_, ?_⟩
  · intro e h
    simp [parse_target_label, h]
  · intro a p h
    simp [parse_target_label, h, PatternDataOrAmbiguous.reject_ambiguity]
  · intro a pkg tgt h
    simp [parse_target_label, h, PatternDataOrAmbiguous.reject_ambiguity]
  · intro a pkg h
    simp [parse_target_label, h, PatternDataOrAmbiguous.reject_ambiguity]
  · intro a pkg h
    simp [parse_target_label, h, PatternDataOrAmbiguous.reject_ambiguity]

/-- Witness for the amended C6, at a recursive-pattern input and at an
ambiguous input. -/
theorem parse_target_label_error_taxonomy_witness :
    lex_target_pattern "//foo/..." false = .ok ⟨some "", .data (.recursive "foo")⟩ ∧
    parse_target_label "//foo/..." = .error (.notTargetLabel "//foo/...") ∧
    lex_target_pattern "foo" false = .ok ⟨none, .ambiguous "foo"⟩ ∧
    parse_target_label "foo" = .error (.ambiguousPattern "foo") :=
  ⟨by decide,
    (parse_target_label_error_taxonomy "//foo/...").2.2.2.2 (some "") "foo" (by decide),
    by decide,
    (parse_target_label_error_taxonomy "foo").2.1 none "foo" (by decide)⟩

/-- C7: `parse_target_label "//foo:bar"` succeeds and round-trips to
`"//foo:bar"`; `"cell//foo/bar:baz"` round-trips; `"foo"` fails (not
package-qualified); `"//foo:"` fails (empty target name). -/
theorem parse_target_label_examples :
    (parse_target_label "//foo:bar").map TargetLabel.str = .ok "//foo:bar" ∧
    (parse_target_label "cell//foo/bar:baz").map TargetLabel.str =
      .ok "cell//foo/bar:baz" ∧
    parse_target_label "foo" = .error (.ambiguousPattern "foo") ∧
    parse_target_label "//foo:" = .error (.notTargetLabel "//foo:") :=
  ⟨by decide, by decide, by decide, by decide⟩

/-- C8: `coerce_name` by exactly three cases: a resolved label yields
its unconfigured target label; a string goes through
`parse_target_label`; any other value fails with `InvalidNameType`
carrying the value's type and display form. -/
theorem coerce_name_cases :
    (∀ l : ConfiguredProvidersLabel, coerce_name (.label l) = .ok l.target.target) ∧
    (∀ s : String, coerce_name (.str s) = parse_target_label s) ∧
    (∀ v : Value, (∀ l, v ≠ .label l) → (∀ s, v ≠ .str s) →
       coerce_name v = .error (.invalidNameType v.get_type v.display)) := by
  refine ⟨fun l => rfl, fun s => rfl, ?_⟩
  intro v hl hs
  cases v with
  | label l => exact absurd rfl (hl l)
  | str s => exact absurd rfl (hs s)
  | int n => rfl
  | bool b => rfl
  | none => rfl

/-- Witness for C8 at a non-label, non-string value. -/
theorem coerce_name_cases_witness :
    coerce_name (.int 7) = .error (.invalidNameType "int" "7") :=
  coerce_name_cases.2.2 (.int 7) (fun _ h => Value.noConfusion h)
    (fun _ h => Value.noConfusion h)

/-- C3: when key construction fails (for example with
`UnknownAttribute` for an attribute name absent from the rule's
schema), `register` appends no entry and returns the error
synchronously — a subsequent `get_promises` sees no new pending item;
on success exactly one `(promise, key)` entry is appended. -/
theorem register_appends_iff_key_built
    (r : AnonTargetsRegistry) (p : Promise) (rule : FrozenRuleCallable)
    (attrs : List (String × Value)) :
    (∀ e, AnonTargetKey.new r.execution_platform rule attrs = .error e →
       r.register p rule attrs = (.error e, r) ∧
       (r.register p rule attrs).2.get_promises = r.get_promises) ∧
    (∀ key, AnonTargetKey.new r.execution_platform rule attrs = .ok key →
       r.register p rule attrs =
         (.ok (), ⟨r.execution_platform, r.entries ++ [(p, key)]⟩)) ∧
    (∀ k v rest, attrs = (k, v) :: rest → ¬ k = "name" →
       lookupKey rule.attributes k = none →
       AnonTargetKey.new r.execution_platform rule attrs =
         .error (.unknownAttribute k)) := by
  refine ⟨?_, ?_, ?_⟩
  · intro e h
    have hreg : r.register p rule attrs = (.error e, r) := by
      simp [AnonTargetsRegistry.register, h]
    exact ⟨hreg, by rw [hreg]⟩
  · intro key h
    simp [AnonTargetsRegistry.register, h]
  · intro k v rest hattrs hname hlk
    subst hattrs
    unfold AnonTargetKey.new
    simp [coerceEntries, stepEntry, hname, hlk]

/-- Witness for C3: registering with an attribute absent from the
schema returns `UnknownAttribute` and leaves the registry unchanged. -/
theorem register_appends_iff_key_built_witness :
    (AnonTargetsRegistry.new epW).register 0 ruleW [("bogus", .str "x")] =
      (.error (.unknownAttribute "bogus"), AnonTargetsRegistry.new epW) := by
  have H := register_appends_iff_key_built (AnonTargetsRegistry.new epW) 0 ruleW
    [("bogus", .str "x")]
  exact (H.1 (.unknownAttribute "bogus")
    (H.2.2 "bogus" (.str "x") [] rfl (by decide) (by decide))).1

theorem get_promises_eq_of_ne_nil (r : AnonTargetsRegistry) (hne : r.entries ≠ []) :
    r.get_promises = (some r, ⟨r.execution_platform, []⟩) := by
  have hb : r.entries.isEmpty = false := by
    cases he : r.entries with
    | nil => exact absurd he hne
    | cons a t => rfl
  simp [AnonTargetsRegistry.get_promises, AnonTargetsRegistry.new, hb]

/-- C9: `get_promises` returns `none` exactly when the pending list is
empty (no drain, registry untouched); on a non-empty registry it
returns the registry value holding exactly the formerly pending
entries in registration order and leaves the live registry with an
empty pending list. -/
theorem get_promises_drains (r : AnonTargetsRegistry) :
    (r.entries = [] → r.get_promises = (none, r)) ∧
    (r.entries ≠ [] →
       r.get_promises = (some r, ⟨r.execution_platform, []⟩)) := by
  constructor
  · intro h
    simp [AnonTargetsRegistry.get_promises, h]
  · exact get_promises_eq_of_ne_nil r

/-- Witness for C9 at a registry with three pending entries. -/
theorem get_promises_drains_witness :
    regW.get_promises = (some regW, ⟨epW, []⟩) :=
  (get_promises_drains regW).2 (by decide)

/-- C10: when `get_promises` swaps out a non-empty registry, the
execution platform is preserved on both sides — the drained registry
carries the same execution-platform resolution, and the reset live
registry keeps it too; its entries field is the only field that
changes. -/
theorem get_promises_preserves_execution_platform
    (r : AnonTargetsRegistry) (hne : r.entries ≠ []) :
    ∃ drained, r.get_promises.1 = some drained ∧
      drained.execution_platform = r.execution_platform ∧
      drained.entries = r.entries ∧
      r.get_promises.2.execution_platform = r.execution_platform ∧
      r.get_promises.2.entries = [] := by
  have h := get_promises_eq_of_ne_nil r hne
  exact ⟨r, by rw [h], rfl, rfl, by rw [h], by rw [h]⟩

/-- Witness for C10 at a registry with three pending entries. -/
theorem get_promises_preserves_execution_platform_witness :
    ∃ drained, regW.get_promises.1 = some drained ∧
      drained.execution_platform = regW.execution_platform ∧
      drained.entries = regW.entries ∧
      regW.get_promises.2.execution_platform = regW.execution_platform ∧
      regW.get_promises.2.entries = [] :=
  get_promises_preserves_execution_platform regW (by decide)

/-- C5: `AnonTargetKey::new` stores the execution platform's target
configuration (`cfg()`, not the execution configuration) as the
anonymous target's own configuration, and `run_analysis_impl` consults
the execution-platform resolver with that single stored configuration
in both the target and the execution role: its outcome depends on the
resolver only through its value at `(stored cfg, stored cfg)`. -/
theorem anon_target_configuration_roles :
    (∀ ep rule attrs key, AnonTargetKey.new ep rule attrs = .ok key →
       key.target.cfg = ep.cfg) ∧
    (∀ p skipped,
       ExecutionPlatformResolution.cfg ⟨some p, skipped⟩ = p.target_configuration) ∧
    (∀ (c1 c2 : AnalysisCollaborators) (t : AnonTarget),
       c1.get_rule_impl = c2.get_rule_impl →
       c1.find_execution_platform_by_configuration t.exec_cfg t.exec_cfg =
         c2.find_execution_platform_by_configuration t.exec_cfg t.exec_cfg →
       run_analysis_impl c1 t = run_analysis_impl c2 t) := by
  refine ⟨?_, fun _ _ => rfl, ?_⟩
  · intro ep rule attrs key h
    obtain ⟨nameOpt, as, name, _, _, rfl⟩ := AnonTargetKey.new_ok_iff.mp h
    rfl
  · intro c1 c2 t h1 h2
    unfold run_analysis_impl
    rw [h1, h2]

/-- Witness for C5: the stored configuration is the platform's target
configuration, and the instrumented resolver receives it twice. -/
theorem anon_target_configuration_roles_witness :
    keyWa.target.cfg = epW.cfg ∧
    run_analysis_impl collabW keyWa.target = run_analysis_impl collabW keyWa.target := by
  refine ⟨?_, ?_⟩
  · exact anon_target_configuration_roles.1 epW ruleW attrsW1 keyWa (by decide)
  · exact anon_target_configuration_roles.2.2 collabW collabW keyWa.target rfl rfl

/-! ### `run_promises` lemmas -/

theorem findSome?_eq_none_of_all_none {α β : Type} {l : List α} {f : α → Option β}
    (h : ∀ x ∈ l, f x = none) : l.findSome? f = none := by
  induction l with
  | nil => rfl
  | cons a t ih =>
    rw [List.findSome?_cons, h a (List.mem_cons_self _ _)]
    exact ih fun x hx => h x (List.mem_cons_of_mem _ hx)

theorem findSome?_eq_some_of_mem {α β : Type} {l : List α} {f : α → Option β} {x : α}
    (hx : x ∈ l) {y : β} (hf : f x = some y) : ∃ z, l.findSome? f = some z := by
  induction l with
  | nil => exact absurd hx (List.not_mem_nil _)
  | cons a t ih =>
    rcases List.mem_cons.mp hx with rfl | hx1
    · exact ⟨y, by rw [List.findSome?_cons, hf]⟩
    · cases hfa : f a with
      | some b => exact ⟨b, by rw [List.findSome?_cons, hfa]⟩
      | none =>
        obtain ⟨z, hz⟩ := ih hx1
        exact ⟨z, by rw [List.findSome?_cons, hfa, hz]⟩

theorem exists_mem_of_findSome?_eq_some {α β : Type} {l : List α} {f : α → Option β}
    {z : β} (h : l.findSome? f = some z) : ∃ x ∈ l, f x = some z := by
  induction l with
  | nil => exact Option.noConfusion h
  | cons a t ih =>
    rw [List.findSome?_cons] at h
    cases hfa : f a with
    | some b =>
      rw [hfa] at h
      injection h with h1
      exact ⟨a, List.mem_cons_self _ _, by rw [hfa, h1]⟩
    | none =>
      rw [hfa] at h
      obtain ⟨x, hx, hfx⟩ := ih h
      exact ⟨x, List.mem_cons_of_mem _ hx, hfx⟩

theorem firstErrorIn_eq_none_of_all_ok {α : Type} {results : List (Except AnonError α)}
    (h : ∀ r ∈ results, ∃ v, r = .ok v) (sched : List Nat) :
    firstErrorIn results sched = none := by
  apply findSome?_eq_none_of_all_none
  intro i _
  cases hg : results.get? i with
  | none => rfl
  | some r =>
    obtain ⟨v, hv⟩ := h r (List.get?_mem hg)
    rw [hv]

theorem firstErrorIn_exists_of_error {α : Type} {results : List (Except AnonError α)}
    {i : Nat} {err : AnonError} (hi : results.get? i = some (.error err))
    {sched : List Nat} (hmem : i ∈ sched) :
    ∃ e, firstErrorIn results sched = some e := by
  apply findSome?_eq_some_of_mem hmem (y := err)
  rw [hi]

theorem index_of_firstErrorIn_eq_some {α : Type} {results : List (Except AnonError α)}
    {sched : List Nat} {e : AnonError} (h : firstErrorIn results sched = some e) :
    ∃ i, results.get? i = some (.error e) := by
  obtain ⟨i, _, hfi⟩ := exists_mem_of_findSome?_eq_some h
  cases hg : results.get? i with
  | none =>
    rw [hg] at hfi
    exact Option.noConfusion hfi
  | some r =>
    cases r with
    | ok v =>
      rw [hg] at hfi
      exact Option.noConfusion hfi
    | error e2 =>
      rw [hg] at hfi
      injection hfi with h1
      exact ⟨i, by rw [hg, h1]⟩

theorem collectResults_entries_ok (entries : List (Promise × AnonTargetKey))
    (resolve : AnonTargetKey → Except AnonError AnalysisResult)
    (h : ∀ e ∈ entries, ∃ v, resolve e.2 = .ok v) :
    collectResults (entries.map fun e => resolve e.2) =
      .ok (entries.map fun e =>
        match resolve e.2 with
        | .ok v => v
        | .error _ => (⟨0, []⟩ : AnalysisResult)) := by
  induction entries with
  | nil => rfl
  | cons e t ih =>
    obtain ⟨v, hv⟩ := h e (List.mem_cons_self _ _)
    have ht := ih fun x hx => h x (List.mem_cons_of_mem _ hx)
    simp only [List.map_cons, hv, collectResults, ht]

theorem zip_map_bindings (entries : List (Promise × AnonTargetKey))
    (resolve : AnonTargetKey → Except AnonError AnalysisResult) :
    ((entries.zip (entries.map fun e =>
        match resolve e.2 with
        | .ok v => v
        | .error _ => (⟨0, []⟩ : AnalysisResult))).map
      fun pv => (pv.1.1, pv.2.provider_collection)) =
      entries.map fun e => (e.1, resolvedProviderValue resolve e.2) := by
  induction entries with
  | nil => rfl
  | cons e t ih =>
    simp only [List.map_cons, List.zip_cons_cons, ih]
    cases hr : resolve e.2 with
    | ok v => simp [resolvedProviderValue, hr]
    | error err => simp [resolvedProviderValue, hr]

/-- C2: within one batch, `run_promises` binds the promises strictly in
registration order regardless of the completion order of the
concurrent resolutions, each promise to its own key's
provider-collection value; if any key's resolution fails, the first
error encountered (in completion order) aborts the whole batch — the
result is that error, one of the failing resolutions' errors, with no
promise bound. -/
theorem run_promises_order_and_abort
    (r : AnonTargetsRegistry)
    (resolve : AnonTargetKey → Except AnonError AnalysisResult)
    (sched : List Nat) (hsched : sched.Perm (List.range r.entries.length)) :
    ((∀ e ∈ r.entries, ∃ v, resolve e.2 = .ok v) →
       r.run_promises resolve sched =
         .ok (r.entries.map fun e => (e.1, resolvedProviderValue resolve e.2))) ∧
    ((∃ e0 ∈ r.entries, ∃ err, resolve e0.2 = .error err) →
       ∃ err, r.run_promises resolve sched = .error err ∧
         ∃ e0 ∈ r.entries, resolve e0.2 = .error err) := by
  constructor
  · intro h
    have hres : ∀ q ∈ r.entries.map fun e => resolve e.2, ∃ v, q = .ok v := by
      intro q hq
      obtain ⟨e, he, rfl⟩ := List.mem_map.mp hq
      exact h e he
    have hnone := firstErrorIn_eq_none_of_all_ok hres sched
    have hcoll := collectResults_entries_ok r.entries resolve h
    unfold AnonTargetsRegistry.run_promises try_join_all
    rw [hnone, hcoll]
    dsimp only
    rw [zip_map_bindings]
  · rintro ⟨e0, he0, err, herr⟩
    obtain ⟨i, hi⟩ := List.get?_of_mem he0
    have hres0 : (r.entries.map fun e => resolve e.2).get? i = some (resolve e0.2) := by
      rw [List.get?_map, hi]
      rfl
    have hres : (r.entries.map fun e => resolve e.2).get? i = some (.error err) := by
      rw [hres0, herr]
    have hilt : i < r.entries.length := by
      by_contra hge
      rw [List.get?_eq_none.mpr (Nat.le_of_not_lt hge)] at hi
      exact Option.noConfusion hi
    have hmem : i ∈ sched := hsched.mem_iff.mpr (List.mem_range.mpr hilt)
    obtain ⟨e, he⟩ := firstErrorIn_exists_of_error hres hmem
    refine ⟨e, ?_, ?_⟩
    · unfold AnonTargetsRegistry.run_promises try_join_all
      rw [he]
    · obtain ⟨j, hj⟩ := index_of_firstErrorIn_eq_some he
      rw [List.get?_map] at hj
      cases hje : r.entries.get? j with
      | none =>
        rw [hje] at hj
        exact Option.noConfusion hj
      | some ej =>
        rw [hje] at hj
        have hj1 : some (resolve ej.2) = some (Except.error e) := hj
        injection hj1 with h1
        exact ⟨ej, List.get?_mem hje, h1⟩

/-- Witness for C2: three registrations whose resolutions complete in
the order R3, R1, R2 are still bound in program order R1, R2, R3. -/
theorem run_promises_order_and_abort_witness :
    ([2, 0, 1].Perm (List.range regW.entries.length)) ∧
    regW.run_promises resolveW [2, 0, 1] = .ok [(0, 1), (1, 2), (2, 3)] := by
  refine ⟨by decide, ?_⟩
  have H := (run_promises_order_and_abort regW resolveW [2, 0, 1] (by decide)).1
    (fun e _ => ⟨_, rfl⟩)
  rw [H]
  decide

end AnonTargets
